import Mathlib

/-!
# RahimovSagdiiHW.go: factorial, its table-driven test, and main

A shallow embedding of `src/RahimovSagdiiHW.go`.

* Go `int` is taken as 64-bit two's complement: values are `Int`s and every
  arithmetic result is reduced by `wrap64`.
* A channel is the sequence of values sent on it (`List Int`); a send appends,
  a receive takes the head.
* The `for` loop of `factorial` is run with fuel: `none` means the fuel ran out
  before the loop condition became false.
-/

namespace RahimovSagdiiHW

/-! ## Machine integers -/

/-- Largest Go `int` (64-bit): `2^63 - 1`. -/
def maxInt64 : Int := 9223372036854775807

/-- Smallest Go `int` (64-bit): `-2^63`. -/
def minInt64 : Int := -9223372036854775808

/-- Reduction of an exact integer into the 64-bit two's complement range
`-2^63 .. 2^63 - 1` (the value a Go `int` operation stores). -/
def wrap64 (x : Int) : Int :=
  (x + 9223372036854775808) % 18446744073709551616 - 9223372036854775808

/-! ## Task 1: `factorial` -/

/-- The loop `for i := 1; i <= n; i++ { result *= i }` started in the state
`(i, result)`. `iters` is a ghost counter of executed loop bodies. The result
is the final `result` together with the number of bodies executed, or `none`
when `fuel` condition checks did not suffice. -/
def factorialLoop : Nat → Int → Int → Int → Nat → Option (Int × Nat)
  | 0, _, _, _, _ => none
  | fuel + 1, n, i, result, iters =>
    if i ≤ n then
      factorialLoop fuel n (wrap64 (i + 1)) (wrap64 (result * i)) (iters + 1)
    else
      some (result, iters)

/-- Source `factorial(n int, resultChan chan int)`: `result := 1`, the loop
from `i := 1`, then `resultChan <- result`. The channel is the list of values
sent so far; the send appends. -/
def factorial (fuel : Nat) (n : Int) (resultChan : List Int) : Option (List Int) :=
  match factorialLoop fuel n 1 1 0 with
  | some (result, _) => some (resultChan ++ [result])
  | none => none

/-- Receive `<-resultChan`: the oldest value sent, and the rest. `none` when
nothing was sent (the receiver blocks). -/
def recv (resultChan : List Int) : Option (Int × List Int) :=
  match resultChan with
  | [] => none
  | v :: rest => some (v, rest)

/-- The calling pattern used by `TestFactorial`, the benchmarks and `main`:
`resultChan := make(chan int); go factorial(n, resultChan);
result := <-resultChan; close(resultChan)`. -/
def callFactorial (fuel : Nat) (n : Int) : Option Int :=
  match factorial fuel n [] with
  | some ch =>
    match recv ch with
    | some (result, _) => some result
    | none => none
  | none => none

/-- The value `v` is delivered by `factorial` on input `n`: some amount of fuel
lets the caller receive `v`. -/
def Delivers (n v : Int) : Prop := ∃ fuel, callFactorial fuel n = some v

/-! ## Task 3: custom error -/

/-- Source `type FileNotFoundError struct { FileName string }`. -/
structure FileNotFoundError where
  FileName : String
  deriving DecidableEq

/-- Source `func (e FileNotFoundError) Error() string`. -/
def FileNotFoundError.Error (e : FileNotFoundError) : String :=
  "File not found: " ++ e.FileName

/-- A non-nil Go `error` value as `main` distinguishes it: a
`FileNotFoundError`, or any other error with its message. -/
inductive GoError where
  | fileNotFound (e : FileNotFoundError)
  | generic (msg : String)
  deriving DecidableEq

/-- Source `simulateFileOperation`: `none` is the `nil` error. -/
def simulateFileOperation (fileName : String) : Option GoError :=
  if fileName = "nonexistent.txt" then
    some (GoError.fileNotFound { FileName := fileName })
  else
    none

/-! ## Task 5: `TestFactorial` -/

/-- One row of the `testCases` table. -/
structure TestCase where
  input : Int
  expected : Int
  deriving DecidableEq

/-- One call `t.Errorf("For input %d, expected %d, but got %d", input, expected, result)`:
the three arguments of the format. -/
structure Mismatch where
  input : Int
  expected : Int
  actual : Int
  deriving DecidableEq

/-- The text of a mismatch report, as formatted by `t.Errorf`. -/
def Mismatch.message (m : Mismatch) : String :=
  "For input " ++ toString m.input ++ ", expected " ++ toString m.expected ++
    ", but got " ++ toString m.actual

/-- The loop `for _, testCase := range testCases { ... }` of `TestFactorial`
over a computation `f` (`none`: the receive never completes) and the reports
`t` recorded so far. `t.Errorf` records a report and execution continues. -/
def testLoop (f : Int → Option Int) : List TestCase → List Mismatch → Option (List Mismatch)
  | [], t => some t
  | testCase :: rest, t =>
    match f testCase.input with
    | none => none
    | some result =>
      if result ≠ testCase.expected then
        testLoop f rest (t ++ [{ input := testCase.input, expected := testCase.expected,
                                 actual := result }])
      else
        testLoop f rest t

/-- The literal table of `TestFactorial`. -/
def testCases : List TestCase :=
  [⟨0, 1⟩, ⟨1, 1⟩, ⟨5, 120⟩, ⟨10, 3628800⟩]

/-- Source `TestFactorial`: the reports recorded on a fresh `t`. -/
def TestFactorial (fuel : Nat) : Option (List Mismatch) :=
  testLoop (callFactorial fuel) testCases []

/-! ## `main` -/

/-- Source `Shape` implementations `Rectangle` and `Circle`. The `float64`
fields are kept as the whole numbers `main` passes; areas and perimeters are
not computed here, `calculateShapeInfo` is recorded as one print effect. -/
inductive Shape where
  | Rectangle (width height : Nat)
  | Circle (radius : Nat)
  deriving DecidableEq

/-- The externally visible effects of `main`, in program order. -/
inductive Effect where
  | printfInts (format : String) (args : List Int)
  | printfElapsed (format : String)
  | printShapeInfo (s : Shape)
  | println (args : List String)
  | run (name : String) (args : List String)
  deriving DecidableEq

/-- The part of `main` after Task 3: the two `exec.Command(...).Run()` calls.
`runOk name args` tells whether that command's `Run` returns a `nil` error. -/
def mainRunTests (runOk : String → List String → Bool) : List Effect :=
  [Effect.run "go" ["test"]] ++
  if runOk "go" ["test"] then
    [Effect.println ["---------------------------------------------------"],
     Effect.println ["Running Benchmarks:"],
     Effect.run "go" ["test", "-bench=."]] ++
    if runOk "go" ["test", "-bench=."] then
      [Effect.println ["Benchmarks Passed!"]]
    else
      [Effect.println ["Benchmarks Failed!"]]
  else
    [Effect.println ["Tests Failed!"]]

/-- Source `main`, as the sequence of effects it performs. -/
def main (fuel : Nat) (runOk : String → List String → Bool) : Option (List Effect) :=
  let num : Int := 5
  match callFactorial fuel num with
  | none => none
  | some result =>
    let task12 : List Effect :=
      [Effect.printfInts "Factorial of %d is %d\n" [num, result],
       Effect.printfElapsed "Execution time: %s\n",
       Effect.printShapeInfo (Shape.Rectangle 5 3),
       Effect.printShapeInfo (Shape.Circle 4)]
    let fileName := "nonexistent.txt"
    match simulateFileOperation fileName with
    | some err =>
      match err with
      | GoError.fileNotFound fileNotFoundError =>
        some (task12 ++ [Effect.println ["Custom Error:", fileNotFoundError.Error]])
      | GoError.generic msg =>
        some (task12 ++ [Effect.println ["Generic Error:", msg]])
    | none => some (task12 ++ mainRunTests runOk)

/-! ## Arithmetic of `wrap64` -/

theorem wrap64_lower (x : Int) : minInt64 ≤ wrap64 x := by
  unfold wrap64 minInt64; omega

theorem wrap64_upper (x : Int) : wrap64 x ≤ maxInt64 := by
  unfold wrap64 maxInt64; omega

theorem wrap64_of_range (x : Int) (h1 : minInt64 ≤ x) (h2 : x ≤ maxInt64) : wrap64 x = x := by
  unfold wrap64; unfold minInt64 at h1; unfold maxInt64 at h2; omega

theorem wrap64_mul_left (a b : Int) : wrap64 (wrap64 a * b) = wrap64 (a * b) := by
  have h : wrap64 a = a - 18446744073709551616 * ((a + 9223372036854775808) / 18446744073709551616) := by
    unfold wrap64; omega
  rw [h]
  unfold wrap64
  have e : (a - 18446744073709551616 * ((a + 9223372036854775808) / 18446744073709551616)) * b
        + 9223372036854775808
      = (a * b + 9223372036854775808)
        + 18446744073709551616 * (-(((a + 9223372036854775808) / 18446744073709551616) * b)) := by
    ring
  rw [e, Int.add_mul_emod_self_left]

theorem wrap64_eq_zero_iff (x : Int) : wrap64 x = 0 ↔ (18446744073709551616 : Int) ∣ x := by
  unfold wrap64
  constructor
  · intro h; omega
  · intro h; omega

/-! ## The loop of `factorial` -/

theorem factorialLoop_exit (fuel : Nat) (n i result : Int) (iters : Nat) (h : ¬ i ≤ n) :
    factorialLoop (fuel + 1) n i result iters = some (result, iters) := by
  simp [factorialLoop, h]

theorem factorialLoop_body (fuel : Nat) (n i result : Int) (iters : Nat) (h : i ≤ n) :
    factorialLoop (fuel + 1) n i result iters
      = factorialLoop fuel n (wrap64 (i + 1)) (wrap64 (result * i)) (iters + 1) := by
  simp [factorialLoop, h]

/-- Loop invariant: after `k ≤ n` bodies the state is `i = k + 1`,
`result = k!` wrapped, provided the counter cannot overflow (`n < maxInt64`). -/
theorem factorialLoop_steps (n : Int) (hn : n < maxInt64) (k : Nat) (hk : (k : Int) ≤ n)
    (fuel : Nat) :
    factorialLoop (fuel + k) n 1 1 0
      = factorialLoop fuel n ((k : Int) + 1) (wrap64 (k.factorial : Int)) k := by
  induction k generalizing fuel with
  | zero =>
    have h1 : wrap64 1 = 1 := by decide
    simp [Nat.factorial, h1]
  | succ k ih =>
    have hk1 : ((k : Int) + 1) ≤ n := by push_cast at hk; exact hk
    have hk0 : (k : Int) ≤ n := by omega
    have e : fuel + (k + 1) = (fuel + 1) + k := by omega
    rw [e, ih hk0 (fuel + 1), factorialLoop_body _ _ _ _ _ hk1, wrap64_mul_left]
    have hw : wrap64 ((k : Int) + 1 + 1) = ((k + 1 : Nat) : Int) + 1 := by
      rw [wrap64_of_range]
      · push_cast; ring
      · unfold minInt64; omega
      · unfold maxInt64 at *; omega
    have hf : (k.factorial : Int) * ((k : Int) + 1) = ((k + 1).factorial : Int) := by
      rw [Nat.factorial_succ]; push_cast; ring
    rw [hw, hf]

/-- Total correctness of the loop for every `n` below `maxInt64`:
`n.toNat + 1` condition checks suffice, the result is `n.toNat !` wrapped, and
`n.toNat` bodies were executed. -/
theorem factorialLoop_value (n : Int) (hn : n < maxInt64) (extra : Nat) :
    factorialLoop (extra + 1 + n.toNat) n 1 1 0
      = some (wrap64 (n.toNat.factorial : Int), n.toNat) := by
  rcases le_or_lt 0 n with h0 | h0
  · have hk : ((n.toNat : Nat) : Int) ≤ n := by omega
    rw [factorialLoop_steps n hn n.toNat hk (extra + 1)]
    apply factorialLoop_exit
    omega
  · have ht : n.toNat = 0 := by omega
    rw [ht]
    have h1 : wrap64 ((Nat.factorial 0 : Nat) : Int) = 1 := by decide
    rw [h1]
    apply factorialLoop_exit
    omega

/-- The loop is deterministic in the fuel: two runs that both finish agree. -/
theorem factorialLoop_fuel_unique (f1 f2 : Nat) (n i result : Int) (iters : Nat)
    (a b : Int × Nat)
    (ha : factorialLoop f1 n i result iters = some a)
    (hb : factorialLoop f2 n i result iters = some b) : a = b := by
  induction f1 generalizing f2 i result iters with
  | zero => simp [factorialLoop] at ha
  | succ f1 ih =>
    cases f2 with
    | zero => simp [factorialLoop] at hb
    | succ f2 =>
      by_cases h : i ≤ n
      · rw [factorialLoop_body _ _ _ _ _ h] at ha hb
        exact ih f2 _ _ _ ha hb
      · rw [factorialLoop_exit _ _ _ _ _ h] at ha hb
        rw [← Option.some.inj ha, ← Option.some.inj hb]

/-- With `n = maxInt64` the condition `i <= n` holds for every `int` value of
`i`, so no amount of fuel ends the loop. -/
theorem factorialLoop_maxInt64 (fuel : Nat) (i result : Int) (iters : Nat)
    (hi : i ≤ maxInt64) : factorialLoop fuel maxInt64 i result iters = none := by
  induction fuel generalizing i result iters with
  | zero => simp [factorialLoop]
  | succ fuel ih =>
    rw [factorialLoop_body _ _ _ _ _ hi]
    exact ih _ _ _ (wrap64_upper _)

theorem callFactorial_eq (fuel : Nat) (n : Int) :
    callFactorial fuel n = (factorialLoop fuel n 1 1 0).map Prod.fst := by
  unfold callFactorial factorial recv
  cases factorialLoop fuel n 1 1 0 with
  | none => rfl
  | some p => rfl

theorem factorial_eq (fuel : Nat) (n : Int) (resultChan : List Int) :
    factorial fuel n resultChan
      = (factorialLoop fuel n 1 1 0).map (fun p => resultChan ++ [p.1]) := by
  unfold factorial
  cases factorialLoop fuel n 1 1 0 with
  | none => rfl
  | some p => rfl

/-- Enough fuel makes the call return the wrapped factorial. -/
theorem callFactorial_value (n : Int) (hn : n < maxInt64) (extra : Nat) :
    callFactorial (extra + 1 + n.toNat) n = some (wrap64 (n.toNat.factorial : Int)) := by
  rw [callFactorial_eq, factorialLoop_value n hn extra]; rfl

theorem callFactorial_unique (f1 f2 : Nat) (n a b : Int)
    (ha : callFactorial f1 n = some a) (hb : callFactorial f2 n = some b) : a = b := by
  rw [callFactorial_eq] at ha hb
  cases h1 : factorialLoop f1 n 1 1 0 with
  | none => simp [h1] at ha
  | some p =>
    cases h2 : factorialLoop f2 n 1 1 0 with
    | none => simp [h2] at hb
    | some q =>
      have := factorialLoop_fuel_unique f1 f2 n 1 1 0 p q h1 h2
      simp [h1] at ha
      simp [h2] at hb
      rw [← ha, ← hb, this]

theorem callFactorial_maxInt64 (fuel : Nat) : callFactorial fuel maxInt64 = none := by
  rw [callFactorial_eq, factorialLoop_maxInt64 fuel 1 1 0 (by unfold maxInt64; omega)]; rfl

/-- For `n` below `maxInt64` the delivered values are exactly the wrapped factorial. -/
theorem delivers_iff (n : Int) (hn : n < maxInt64) (v : Int) :
    Delivers n v ↔ v = wrap64 (n.toNat.factorial : Int) := by
  constructor
  · rintro ⟨fuel, hf⟩
    exact callFactorial_unique fuel (0 + 1 + n.toNat) n _ _ hf (callFactorial_value n hn 0)
  · intro hv
    rw [hv]
    exact ⟨0 + 1 + n.toNat, callFactorial_value n hn 0⟩

theorem not_delivers_maxInt64 (v : Int) : ¬ Delivers maxInt64 v := by
  rintro ⟨fuel, hf⟩
  rw [callFactorial_maxInt64] at hf
  exact Option.noConfusion hf

theorem callFactorial_of_le (n : Int) (hn : n < maxInt64) (fuel : Nat)
    (hf : n.toNat + 1 ≤ fuel) :
    callFactorial fuel n = some (wrap64 (n.toNat.factorial : Int)) := by
  obtain ⟨extra, rfl⟩ := Nat.exists_eq_add_of_le hf
  have e : n.toNat + 1 + extra = extra + 1 + n.toNat := by omega
  rw [e]
  exact callFactorial_value n hn extra

/-! ## Size of factorials against the 64-bit range -/

theorem factorial_le_maxInt64 (k : Nat) (hk : k ≤ 20) : (k.factorial : Int) ≤ maxInt64 := by
  have h1 : k.factorial ≤ Nat.factorial 20 := Nat.factorial_le hk
  have h2 : Nat.factorial 20 = 2432902008176640000 := by decide
  unfold maxInt64
  omega

theorem maxInt64_lt_factorial (k : Nat) (hk : 21 ≤ k) : maxInt64 < (k.factorial : Int) := by
  have h1 : Nat.factorial 21 ≤ k.factorial := Nat.factorial_le hk
  have h2 : Nat.factorial 21 = 51090942171709440000 := by decide
  unfold maxInt64
  omega

theorem wrap64_factorial_of_le (k : Nat) (hk : k ≤ 20) :
    wrap64 (k.factorial : Int) = (k.factorial : Int) := by
  apply wrap64_of_range
  · unfold minInt64
    have : (0 : Int) ≤ (k.factorial : Int) := Int.natCast_nonneg _
    omega
  · exact factorial_le_maxInt64 k hk

theorem wrap64_factorial_ne (k : Nat) (hk : 21 ≤ k) :
    wrap64 (k.factorial : Int) ≠ (k.factorial : Int) := by
  intro h
  have h1 := wrap64_upper (k.factorial : Int)
  have h2 := maxInt64_lt_factorial k hk
  omega

theorem wrap64_factorial_eq_zero_iff (k : Nat) :
    wrap64 (k.factorial : Int) = 0 ↔ 66 ≤ k := by
  rw [wrap64_eq_zero_iff]
  have hc : ((18446744073709551616 : Int) ∣ (k.factorial : Int))
      ↔ (18446744073709551616 : Nat) ∣ k.factorial := by
    have := @Int.natCast_dvd_natCast 18446744073709551616 k.factorial
    simpa using this
  rw [hc]
  constructor
  · intro h
    by_contra hlt
    have hle : k ≤ 65 := by omega
    have h65 : (18446744073709551616 : Nat) ∣ Nat.factorial 65 :=
      Dvd.dvd.trans h (Nat.factorial_dvd_factorial hle)
    exact absurd h65 (by decide)
  · intro h
    have h66 : (18446744073709551616 : Nat) ∣ Nat.factorial 66 := by decide
    exact Dvd.dvd.trans h66 (Nat.factorial_dvd_factorial h)

/-! ## Claims about `factorial` -/

/-- C1 (counterexample): on the non-negative input 21 the value delivered is
-4249290049419214848, and no run delivers the product 1 × 2 × … × 21. -/
theorem factorial_21_not_exact :
    (0 : Int) ≤ 21 ∧ callFactorial 22 21 = some (-4249290049419214848) ∧
      ¬ Delivers 21 ((Nat.factorial 21 : Nat) : Int) := by
  have hw : wrap64 ((Nat.factorial 21 : Nat) : Int) = -4249290049419214848 := by decide
  have hv : callFactorial 22 21 = some (-4249290049419214848) := by
    rw [callFactorial_of_le 21 (by decide) 22 (by decide)]
    exact congrArg some hw
  refine ⟨by decide, hv, ?_⟩
  rintro ⟨fuel, hf⟩
  have h := callFactorial_unique fuel 22 21 _ _ hf hv
  have h2 : Nat.factorial 21 = 51090942171709440000 := by decide
  rw [h2] at h
  omega

/-- C1 (amended): for every n with 0 ≤ n ≤ 20, `factorial(n, out)` run with
n + 1 or more condition checks sends on `out` exactly the product
1 × 2 × … × n = n!, which is 1 for n = 0. -/
theorem factorial_exact_of_le_20 (n : Int) (h0 : 0 ≤ n) (h20 : n ≤ 20) (extra : Nat)
    (out : List Int) :
    factorial (extra + 1 + n.toNat) n out = some (out ++ [((n.toNat.factorial : Nat) : Int)]) := by
  have hn : n < maxInt64 := by unfold maxInt64; omega
  have hk : n.toNat ≤ 20 := by omega
  rw [factorial_eq, factorialLoop_value n hn extra, wrap64_factorial_of_le n.toNat hk]
  rfl

theorem factorial_exact_of_le_20_witness :
    (0 : Int) ≤ 5 ∧ (5 : Int) ≤ 20 ∧
      factorial (0 + 1 + (5 : Int).toNat) 5 [7] = some ([7] ++ [((Nat.factorial (5 : Int).toNat : Nat) : Int)]) :=
  ⟨by decide, by decide, factorial_exact_of_le_20 5 (by decide) (by decide) 0 [7]⟩

/-- C2: for every amount of fuel from 11 up, the calls of `factorial` on
0, 1, 5 and 10 return 1, 1, 120 and 3628800, and `TestFactorial` records no
mismatch. -/
theorem TestFactorial_passes (extra : Nat) :
    callFactorial (extra + 11) 0 = some 1 ∧
    callFactorial (extra + 11) 1 = some 1 ∧
    callFactorial (extra + 11) 5 = some 120 ∧
    callFactorial (extra + 11) 10 = some 3628800 ∧
    TestFactorial (extra + 11) = some [] := by
  have h0 : callFactorial (extra + 11) 0 = some 1 := by
    rw [callFactorial_of_le 0 (by decide) (extra + 11) (by simp)]; rfl
  have h1 : callFactorial (extra + 11) 1 = some 1 := by
    rw [callFactorial_of_le 1 (by decide) (extra + 11) (by simp)]; rfl
  have h5 : callFactorial (extra + 11) 5 = some 120 := by
    rw [callFactorial_of_le 5 (by decide) (extra + 11) (by simp)]; rfl
  have h10 : callFactorial (extra + 11) 10 = some 3628800 := by
    rw [callFactorial_of_le 10 (by decide) (extra + 11) (by simp)]; rfl
  refine ⟨h0, h1, h5, h10, ?_⟩
  simp [TestFactorial, testCases, testLoop, h0, h1, h5, h10]

/-- C3 (counterexample): with n = 2^63 - 1, the largest `int`, no amount of
fuel lets `factorial` send anything: the call does not terminate. -/
theorem factorial_maxInt64_never_sends :
    ¬ ∃ (fuel : Nat) (resultChan out : List Int),
        factorial fuel maxInt64 resultChan = some out := by
  rintro ⟨fuel, resultChan, out, h⟩
  rw [factorial_eq, factorialLoop_maxInt64 fuel 1 1 0 (by unfold maxInt64; omega)] at h
  exact Option.noConfusion h

/-- C3 (amended): for every `int` n other than the largest one (negative, zero
or positive), a call `factorial(n, resultChan)` terminates, and every
terminating run leaves the channel as its previous contents followed by
exactly one new value. -/
theorem factorial_appends_one (n : Int) (hn : n < maxInt64) (resultChan : List Int) :
    ∃ v : Int,
      (∃ fuel, factorial fuel n resultChan = some (resultChan ++ [v])) ∧
      ∀ fuel out, factorial fuel n resultChan = some out →
        out = resultChan ++ [v] ∧ out.length = resultChan.length + 1 := by
  refine ⟨wrap64 (n.toNat.factorial : Int), ⟨0 + 1 + n.toNat, ?_⟩, ?_⟩
  · rw [factorial_eq, factorialLoop_value n hn 0]; rfl
  · intro fuel out h
    rw [factorial_eq] at h
    cases hl : factorialLoop fuel n 1 1 0 with
    | none => simp [hl] at h
    | some p =>
      have hp := factorialLoop_fuel_unique fuel (0 + 1 + n.toNat) n 1 1 0 p _ hl
        (factorialLoop_value n hn 0)
      simp [hl, hp] at h
      subst h
      simp

theorem factorial_appends_one_witness :
    (-3 : Int) < maxInt64 ∧
      ∃ v : Int,
        (∃ fuel, factorial fuel (-3) [4, 2] = some ([4, 2] ++ [v])) ∧
        ∀ fuel out, factorial fuel (-3) [4, 2] = some out →
          out = [4, 2] ++ [v] ∧ out.length = [4, 2].length + 1 :=
  ⟨by decide, factorial_appends_one (-3) (by decide) [4, 2]⟩

/-- C4 (counterexample): the non-negative input n = 2^63 - 1 gets no value at
all, so in particular not n! reduced modulo 2^64. -/
theorem factorial_maxInt64_no_wrapped_value :
    0 ≤ maxInt64 ∧ ¬ Delivers maxInt64 (wrap64 ((maxInt64.toNat.factorial : Nat) : Int)) :=
  ⟨by unfold maxInt64; omega, not_delivers_maxInt64 _⟩

/-- C4 (amended): for every non-negative `int` n other than the largest one,
`factorial` delivers, without any overflow check, the value v in
-2^63 .. 2^63 - 1 that is congruent to n! modulo 2^64. -/
theorem factorial_wraps (n : Int) (_h0 : 0 ≤ n) (hn : n < maxInt64) (extra : Nat) :
    ∃ v : Int, callFactorial (extra + 1 + n.toNat) n = some v ∧
      v = wrap64 ((n.toNat.factorial : Nat) : Int) ∧
      minInt64 ≤ v ∧ v ≤ maxInt64 ∧
      v % 18446744073709551616 = ((n.toNat.factorial : Nat) : Int) % 18446744073709551616 := by
  refine ⟨_, callFactorial_value n hn extra, rfl, wrap64_lower _, wrap64_upper _, ?_⟩
  unfold wrap64
  omega

theorem factorial_wraps_witness :
    (0 : Int) ≤ 21 ∧ (21 : Int) < maxInt64 ∧
      ∃ v : Int, callFactorial (0 + 1 + (21 : Int).toNat) 21 = some v ∧
        v = wrap64 ((Nat.factorial (21 : Int).toNat : Nat) : Int) ∧
        minInt64 ≤ v ∧ v ≤ maxInt64 ∧
        v % 18446744073709551616
          = ((Nat.factorial (21 : Int).toNat : Nat) : Int) % 18446744073709551616 :=
  ⟨by decide, by decide, factorial_wraps 21 (by decide) (by decide) 0⟩

/-- C5: for every negative n, `factorial(n, out)` has no validation step: the
first check of the loop condition fails, zero loop bodies are executed and
the value sent is 1. -/
theorem factorial_negative (n : Int) (hneg : n < 0) (extra : Nat) (out : List Int) :
    factorialLoop (extra + 1) n 1 1 0 = some (1, 0) ∧
    factorial (extra + 1) n out = some (out ++ [1]) := by
  have hx : factorialLoop (extra + 1) n 1 1 0 = some (1, 0) :=
    factorialLoop_exit extra n 1 1 0 (by omega)
  refine ⟨hx, ?_⟩
  rw [factorial_eq, hx]; rfl

theorem factorial_negative_witness :
    (-7 : Int) < 0 ∧
      factorialLoop (0 + 1) (-7) 1 1 0 = some (1, 0) ∧
      factorial (0 + 1) (-7) [3] = some ([3] ++ [1]) :=
  ⟨by decide, factorial_negative (-7) (by decide) 0 [3]⟩

/-! ## Claims about the test harness and `main` -/

/-- C6: over any computation `g` and any table, the loop of `TestFactorial`
runs through every row and adds to the reports already recorded one report
(input, expected, actual = g input) for exactly the rows with
g input ≠ expected, in table order; rows after a mismatch are still
evaluated and matching rows add nothing. -/
theorem testLoop_reports (g : Int → Int) (table : List TestCase) (t : List Mismatch) :
    testLoop (fun x => some (g x)) table t
      = some (t ++ (table.filter (fun c => decide (g c.input ≠ c.expected))).map
          (fun c => { input := c.input, expected := c.expected, actual := g c.input })) := by
  induction table generalizing t with
  | nil => simp [testLoop]
  | cons c rest ih =>
    by_cases h : g c.input = c.expected
    · simp [testLoop, h, ih]
    · simp [testLoop, h, ih]

/-- C7 (code as written): whatever the outcome of external commands, `main`
performs exactly the prints of Tasks 1 and 2 and the "Custom Error:" line of
Task 3 and then returns; no command is ever spawned, `go test` included. -/
theorem main_returns_before_go_test (extra : Nat) (runOk : String → List String → Bool) :
    ∃ trace : List Effect,
      main (extra + 6) runOk = some trace ∧
      trace = [Effect.printfInts "Factorial of %d is %d\n" [5, 120],
               Effect.printfElapsed "Execution time: %s\n",
               Effect.printShapeInfo (Shape.Rectangle 5 3),
               Effect.printShapeInfo (Shape.Circle 4),
               Effect.println ["Custom Error:", "File not found: nonexistent.txt"]] ∧
      ∀ name args, Effect.run name args ∉ trace := by
  have h5 : callFactorial (extra + 6) 5 = some 120 := by
    rw [callFactorial_of_le 5 (by decide) (extra + 6) (by simp)]; rfl
  have hs : simulateFileOperation "nonexistent.txt"
      = some (GoError.fileNotFound { FileName := "nonexistent.txt" }) := by decide
  have he : FileNotFoundError.Error { FileName := "nonexistent.txt" }
      = "File not found: nonexistent.txt" := by decide
  refine ⟨_, ?_, rfl, ?_⟩
  · simp only [main, h5, hs, he]
    rfl
  · intro name args
    simp

/-- C8: two invocations of `factorial` with the same n, run with any fuel and
on channels with any prior contents, send the same value: each leaves its
channel as the prior contents followed by one common value. -/
theorem factorial_deterministic (n : Int) (f1 f2 : Nat) (chan1 chan2 out1 out2 : List Int)
    (h1 : factorial f1 n chan1 = some out1) (h2 : factorial f2 n chan2 = some out2) :
    ∃ v : Int, out1 = chan1 ++ [v] ∧ out2 = chan2 ++ [v] := by
  rw [factorial_eq] at h1 h2
  cases hl1 : factorialLoop f1 n 1 1 0 with
  | none => simp [hl1] at h1
  | some p =>
    cases hl2 : factorialLoop f2 n 1 1 0 with
    | none => simp [hl2] at h2
    | some q =>
      have hpq := factorialLoop_fuel_unique f1 f2 n 1 1 0 p q hl1 hl2
      simp [hl1] at h1
      simp [hl2] at h2
      exact ⟨p.1, h1.symm, by rw [hpq]; exact h2.symm⟩

theorem factorial_deterministic_witness :
    factorial 6 5 [] = some [120] ∧ factorial 9 5 [7, 7] = some [7, 7, 120] ∧
      ∃ v : Int, [120] = [] ++ [v] ∧ [7, 7, 120] = [7, 7] ++ [v] :=
  ⟨by rfl, by rfl, factorial_deterministic 5 6 9 [] [7, 7] [120] [7, 7, 120] (by rfl) (by rfl)⟩

/-! ## Claims about the 64-bit range -/

/-- C9: for every non-negative `int` n, the exact n! is delivered if and only
if n ≤ 20; every n from 0 to 20 gets n! (20 gets 2432902008176640000), and
every n ≥ 21 below the largest `int` gets a value different from n!. -/
theorem factorial_exact_iff_le_20 (n : Int) (h0 : 0 ≤ n) (hmax : n ≤ maxInt64) :
    (Delivers n ((n.toNat.factorial : Nat) : Int) ↔ n ≤ 20) ∧
    (n ≤ 20 → ∀ extra : Nat,
      callFactorial (extra + 1 + n.toNat) n = some ((n.toNat.factorial : Nat) : Int)) ∧
    (21 ≤ n → ∀ v, Delivers n v → v ≠ ((n.toNat.factorial : Nat) : Int)) ∧
    (21 ≤ n → n < maxInt64 →
      ∃ v, Delivers n v ∧ v ≠ ((n.toNat.factorial : Nat) : Int)) ∧
    callFactorial 21 20 = some 2432902008176640000 := by
  have hsmall : n ≤ 20 → ∀ extra : Nat,
      callFactorial (extra + 1 + n.toNat) n = some ((n.toNat.factorial : Nat) : Int) := by
    intro h20 extra
    have hn : n < maxInt64 := by unfold maxInt64; omega
    rw [callFactorial_value n hn extra, wrap64_factorial_of_le n.toNat (by omega)]
  have hbig : 21 ≤ n → ∀ v, Delivers n v → v ≠ ((n.toNat.factorial : Nat) : Int) := by
    intro h21 v hv
    rcases lt_or_eq_of_le hmax with hlt | heq
    · rw [(delivers_iff n hlt v).mp hv]
      exact wrap64_factorial_ne n.toNat (by omega)
    · rw [heq] at hv
      exact absurd hv (not_delivers_maxInt64 v)
  refine ⟨⟨?_, ?_⟩, hsmall, hbig, ?_, ?_⟩
  · intro hd
    by_contra hgt
    exact hbig (by omega) _ hd rfl
  · intro h20
    exact ⟨0 + 1 + n.toNat, hsmall h20 0⟩
  · intro h21 hlt
    exact ⟨wrap64 ((n.toNat.factorial : Nat) : Int), (delivers_iff n hlt _).mpr rfl,
      wrap64_factorial_ne n.toNat (by omega)⟩
  · have h20 : Nat.factorial 20 = 2432902008176640000 := by decide
    rw [callFactorial_of_le 20 (by decide) 21 (by decide),
      wrap64_factorial_of_le _ (by decide)]
    exact congrArg some (by exact_mod_cast h20)

theorem factorial_exact_iff_le_20_witness :
    (0 : Int) ≤ 20 ∧ (20 : Int) ≤ maxInt64 ∧
    (Delivers 20 ((Nat.factorial (20 : Int).toNat : Nat) : Int) ↔ (20 : Int) ≤ 20) ∧
    ((20 : Int) ≤ 20 → ∀ extra : Nat,
      callFactorial (extra + 1 + (20 : Int).toNat) 20
        = some ((Nat.factorial (20 : Int).toNat : Nat) : Int)) ∧
    ((21 : Int) ≤ 20 → ∀ v, Delivers 20 v → v ≠ ((Nat.factorial (20 : Int).toNat : Nat) : Int)) ∧
    ((21 : Int) ≤ 20 → (20 : Int) < maxInt64 →
      ∃ v, Delivers 20 v ∧ v ≠ ((Nat.factorial (20 : Int).toNat : Nat) : Int)) ∧
    callFactorial 21 20 = some 2432902008176640000 :=
  ⟨by decide, by decide, factorial_exact_iff_le_20 20 (by decide) (by decide)⟩

/-- C10 (counterexample): the input 2^63 - 1 is at least 66, yet no run of
`factorial` on it delivers 0 (or anything). -/
theorem factorial_maxInt64_not_zero : 66 ≤ maxInt64 ∧ ¬ Delivers maxInt64 0 :=
  ⟨by unfold maxInt64; omega, not_delivers_maxInt64 0⟩

/-- C10 (amended): for every `int` n other than the largest one, `factorial`
delivers a value, and that value is 0 exactly when n ≥ 66; for n ≤ 65,
negative n included, it is non-zero. -/
theorem factorial_zero_iff_ge_66 (n : Int) (hn : n < maxInt64) (extra : Nat) :
    (∃ v : Int, callFactorial (extra + 1 + n.toNat) n = some v ∧ (v = 0 ↔ 66 ≤ n)) ∧
    (Delivers n 0 ↔ 66 ≤ n) := by
  have hz : wrap64 ((n.toNat.factorial : Nat) : Int) = 0 ↔ 66 ≤ n := by
    rw [wrap64_factorial_eq_zero_iff]; omega
  refine ⟨⟨_, callFactorial_value n hn extra, hz⟩, ?_⟩
  rw [delivers_iff n hn 0]
  constructor
  · intro h; exact hz.mp h.symm
  · intro h; exact (hz.mpr h).symm

theorem factorial_zero_iff_ge_66_witness :
    (66 : Int) < maxInt64 ∧
    (∃ v : Int, callFactorial (0 + 1 + (66 : Int).toNat) 66 = some v ∧ (v = 0 ↔ (66 : Int) ≤ 66)) ∧
    (Delivers 66 0 ↔ (66 : Int) ≤ 66) :=
  ⟨by decide, factorial_zero_iff_ge_66 66 (by decide) 0⟩

end RahimovSagdiiHW
